import Mathlib

/-!
Verification of the spiegel_rag_js frontend engine against its specification.

The definitions below are shallow embeddings of the TypeScript source:
* `windowLoop` / `timeIntervalCalculation` embed the `timeIntervalCalculation`
  memo of `SearchPanel` (the window-planning loop);
* `scanText` / `renderCitation` embed the citation processing of
  `AnalysisPanel` (`processText` and `CitationComponent`);
* `chunksWithIds` / `performSearch` embed the `performSearch` action of
  `useAppStore`;
* `calculateStats` / `binIndexOf` embed `ScoreVisualization`.

JavaScript numbers are modelled as `Int` (years, indices) and `Rat`
(scores); all arithmetic in scope is exact at these magnitudes.
-/

namespace SpiegelRag

/-! Window planning (SearchPanel.timeIntervalCalculation)

The source loop is:
```
let currentStart = year_start;
while (currentStart <= year_end) {
    const currentEnd = Math.min(currentStart + time_interval_size - 1, year_end);
    intervals.push(`${currentStart}-${currentEnd}`);
    currentStart = currentEnd + 1;
}
```
The loop is modelled with explicit fuel: `none` means the loop has not
terminated within `fuel` iterations (for `size ≤ 0` and
`currentStart ≤ year_end` it never terminates).  Windows are kept as
year pairs; `renderWindow` produces the pushed string.
-/

def windowLoop (size ye : ℤ) (fuel : Nat) (cs : ℤ) : Option (List (ℤ × ℤ)) :=
  match fuel with
  | 0 => none
  | fuel + 1 =>
    if cs > ye then some []
    else
      match windowLoop size ye fuel (min (cs + size - 1) ye + 1) with
      | none => none
      | some ws => some ((cs, min (cs + size - 1) ye) :: ws)

/-- The string pushed for one window: `` `${currentStart}-${currentEnd}` ``. -/
def renderWindow (w : ℤ × ℤ) : String :=
  toString w.1 ++ "-" ++ toString w.2

/-- Formula `Math.ceil(span / time_interval_size)` with `span = year_end - year_start + 1`. -/
def numIntervalsFormula (ys ye size : ℤ) : ℤ :=
  ⌈((ye - ys + 1 : ℤ) : ℚ) / ((size : ℤ) : ℚ)⌉

/-- The summary sentence built by `timeIntervalCalculation`. -/
def mkSummary (span numIntervals size : ℤ) : String :=
  "Der Zeitraum von " ++ toString span ++ " Jahren wird in " ++
    toString numIntervals ++ " Intervalle à ca. " ++ toString size ++
    " Jahre aufgeteilt."

structure TICOutput where
  summary : String
  intervals : List String
deriving DecidableEq, Repr

/-- Embedding of the `timeIntervalCalculation` memo (the
`use_time_intervals = false` early `return null` is omitted: all claims
concern the enabled case).  `Sum.inl` is the error string returned for
`year_start > year_end`; `none` means the generation loop did not
terminate within `fuel` iterations. -/
def timeIntervalCalculation (ys ye size : ℤ) (fuel : Nat) :
    Option (String ⊕ TICOutput) :=
  if ys > ye then some (Sum.inl ("Startjahr muss vor Endjahr liegen."))
  else
    (windowLoop size ye fuel ys).map (fun ws =>
      Sum.inr ⟨mkSummary (ye - ys + 1) (numIntervalsFormula ys ye size) size,
               ws.map renderWindow⟩)

/-! Citation processing (AnalysisPanel)

`processText` splits each markdown text node along the global regex
`/\[(\d+)\]/g`, pushes the text between matches unchanged, and replaces
each match by a `CitationComponent` with
`citationNumber = parseInt(match[1])` and
`chunk = chunks[citationNumber - 1]`.  `CitationComponent` renders a
clickable chip when `chunk` is defined and the plain span
`[citationNumber]` otherwise.

`scanAux` is a single left-to-right pass implementing the regex scan:
a match is a literal `[`, a maximal non-empty run of decimal digits,
and a literal `]` (the greedy `\d+` admits no shorter run, since a
shorter run is followed by a digit, not `]`).  `pending = some ds`
means the scanner sits inside a prospective match `[ds` with the
digits read so far in reverse. -/

inductive TextPart
  | text (s : List Char)
  | cite (digits : List Char)
deriving DecidableEq, Repr

/-- Prepend one plain character, merging with a following text part. -/
def consText (c : Char) : List TextPart → List TextPart
  | TextPart.text t :: ps => TextPart.text (c :: t) :: ps
  | ps => TextPart.text [c] :: ps

def prependChars (xs : List Char) (ps : List TextPart) : List TextPart :=
  xs.foldr consText ps

def scanAux : Option (List Char) → List Char → List TextPart
  | none, [] => []
  | some ds, [] => prependChars ('[' :: ds.reverse) []
  | none, c :: cs =>
    if c = '[' then scanAux (some []) cs
    else consText c (scanAux none cs)
  | some ds, c :: cs =>
    if c.isDigit then scanAux (some (c :: ds)) cs
    else if c = ']' then
      if ds.isEmpty then prependChars ['[', ']'] (scanAux none cs)
      else TextPart.cite ds.reverse :: scanAux none cs
    else if c = '[' then prependChars ('[' :: ds.reverse) (scanAux (some []) cs)
    else prependChars ('[' :: ds.reverse) (consText c (scanAux none cs))

/-- The part list produced by `processText` for one text node. -/
def scanText (cs : List Char) : List TextPart := scanAux none cs

/-- The characters a pending prospective match occupies in the input. -/
def pendChars : Option (List Char) → List Char
  | none => []
  | some ds => '[' :: ds.reverse

/-- Value of `parseInt` on a non-empty digit string. -/
def digitsToNat (ds : List Char) : ℕ :=
  ds.foldl (fun acc c => acc * 10 + (c.toNat - 48)) 0

/-- The characters a part occupies in the input text (a citation part
occupies its matched span `[digits]`). -/
def partChars : TextPart → List Char
  | TextPart.text s => s
  | TextPart.cite ds => '[' :: (ds ++ [']'])

def partsChars (ps : List TextPart) : List Char := (ps.map partChars).flatten

/-- The citation numbers extracted from a part list, in text order. -/
def citationNumbers (ps : List TextPart) : List ℕ :=
  ps.filterMap fun p =>
    match p with
    | TextPart.cite ds => some (digitsToNat ds)
    | _ => none

/-- JavaScript array read `l[i]`: `undefined` (`none`) outside `0 ≤ i < l.length`. -/
def jsGet {α : Type} (l : List α) (i : ℤ) : Option α :=
  if 0 ≤ i then l[i.toNat]? else none

/-- Resolution `chunks[citationNumber - 1]` with the index computed in ℤ, as in JS. -/
def resolveCitation {α : Type} (chunks : List α) (n : ℕ) : Option α :=
  jsGet chunks ((n : ℤ) - 1)

/-- What `CitationComponent` renders: an interactive chip, or a plain
non-interactive span. -/
inductive CitationRender (α : Type)
  | chip (n : ℕ) (chunk : α)
  | plainSpan (s : String)
deriving DecidableEq

/-- Rendering of `CitationComponent`: `if (!chunk) return <span>[N]</span>` with N the number,
otherwise a clickable chip holding the resolved chunk. -/
def renderCitation {α : Type} (chunks : List α) (n : ℕ) : CitationRender α :=
  match resolveCitation chunks n with
  | none => CitationRender.plainSpan ("[" ++ toString n ++ "]")
  | some c => CitationRender.chip n c

/-! Store actions (useAppStore.performSearch)

The async action is modelled as a function of the initial state and the
outcome of the awaited API call (`Except.error msg` for the catch path,
`Except.ok` carrying the chunk list of the response). -/

/-- A response chunk together with the client-side id attached by
`performSearch` (`{...chunk, id: index + 1}`). -/
structure IdChunk (α : Type) where
  id : ℕ
  data : α
deriving DecidableEq, Repr

/-- Assignment `response.data.chunks.map((chunk, index) => ({...chunk, id: index + 1}))`. -/
def chunksWithIds {α : Type} (chunks : List α) : List (IdChunk α) :=
  chunks.enum.map (fun p => ⟨p.1 + 1, p.2⟩)

/-- The store fields touched by `performSearch`; `α` is the payload of a
response chunk, `β` the analysis-result payload. -/
structure StoreState (α β : Type) where
  isSearching : Bool
  searchError : Option String
  searchResults : Option (List (IdChunk α))
  selectedChunkIds : List ℕ
  transferredChunks : List (IdChunk α)
  analysisResult : Option β

/-- Embedding of the `performSearch` action. -/
def performSearch {α β : Type} (s : StoreState α β)
    (outcome : Except String (List α)) : StoreState α β :=
  let s1 : StoreState α β :=
    { s with isSearching := true, searchError := none, searchResults := none,
             analysisResult := none, transferredChunks := [] }
  match outcome with
  | Except.ok chunks =>
      let cw := chunksWithIds chunks
      { s1 with searchResults := some cw, isSearching := false,
                selectedChunkIds := cw.map IdChunk.id }
  | Except.error msg =>
      { s1 with searchError := some msg, isSearching := false }

/-! Score visualization (ScoreVisualization)

Scores are modelled as exact rationals.  `calculateStats` sorts a copy
ascending and reads min, max, mean and the three quartiles;
`binIndexOf` is the bin index computed in `ViolinPlot` with `bins = 10`
over the padded dynamic range `[yMin, yMax]`. -/

structure ScoreStats where
  min : ℚ
  max : ℚ
  mean : ℚ
  q1 : ℚ
  median : ℚ
  q3 : ℚ
deriving DecidableEq, Repr

def sortScores (scores : List ℚ) : List ℚ :=
  scores.insertionSort (· ≤ ·)

def calculateStats (scores : List ℚ) : Option ScoreStats :=
  if scores.length = 0 then none
  else
    let sorted := sortScores scores
    some
      { min := sorted.getD 0 0
        max := sorted.getD (sorted.length - 1) 0
        mean := scores.sum / (scores.length : ℚ)
        q1 := sorted.getD (sorted.length / 4) 0
        median := sorted.getD (sorted.length / 2) 0
        q3 := sorted.getD (3 * sorted.length / 4) 0 }

/-- Padding `Math.max(0.05, scoreRange * 0.2)`. -/
def scorePadding (mn mx : ℚ) : ℚ := max (1/20) ((mx - mn) * (1/5))

def yMinOf (mn mx : ℚ) : ℚ := max 0 (mn - scorePadding mn mx)

def yMaxOf (mn mx : ℚ) : ℚ := min 1 (mx + scorePadding mn mx)

/-- Bin index `Math.min(Math.floor(normalizedScore * bins), bins - 1)` with
`normalizedScore = (score - yMin) / (yMax - yMin)` and `bins = 10`. -/
def binIndexOf (yMin yMax score : ℚ) : ℤ :=
  min ⌊(score - yMin) / (yMax - yMin) * 10⌋ 9

/-- Modelled from the claim's words only (for comparison with
`binIndexOf`, which embeds the source): the bin index described as
`Math.min(Math.floor(score * bins), bins - 1)`. -/
def binIndexClaimed (score : ℚ) : ℤ := min ⌊score * 10⌋ 9

lemma windowLoop_succ (size ye : ℤ) (fuel : Nat) (cs : ℤ) :
    windowLoop size ye (fuel + 1) cs =
      if cs > ye then some []
      else
        match windowLoop size ye fuel (min (cs + size - 1) ye + 1) with
        | none => none
        | some ws => some ((cs, min (cs + size - 1) ye) :: ws) := rfl

lemma windowLoop_some_gt (size ye : ℤ) :
    ∀ fuel cs ws, windowLoop size ye fuel cs = some ws → ye < cs → ws = [] := by
  intro fuel cs ws h hgt
  cases fuel with
  | zero => simp [windowLoop] at h
  | succ f =>
    rw [windowLoop_succ, if_pos (by omega)] at h
    exact (Option.some_inj.mp h).symm

lemma windowLoop_nonpos (size ye : ℤ) (hsz : size ≤ 0) :
    ∀ fuel cs, cs ≤ ye → windowLoop size ye fuel cs = none := by
  intro fuel
  induction fuel with
  | zero => intro cs _; rfl
  | succ f ih =>
    intro cs hcs
    rw [windowLoop_succ, if_neg (by omega)]
    have h1 : min (cs + size - 1) ye + 1 ≤ ye := by omega
    rw [ih _ h1]

lemma windowLoop_total (size ye : ℤ) (hsz : 1 ≤ size) :
    ∀ fuel cs, (ye + 1 - cs).toNat < fuel →
      (windowLoop size ye fuel cs).isSome = true := by
  intro fuel
  induction fuel with
  | zero => intro cs h; omega
  | succ f ih =>
    intro cs h
    rw [windowLoop_succ]
    by_cases hgt : cs > ye
    · rw [if_pos hgt]; rfl
    · rw [if_neg hgt]
      have h2 : (ye + 1 - (min (cs + size - 1) ye + 1)).toNat < f := by omega
      have := ih _ h2
      cases hw : windowLoop size ye f (min (cs + size - 1) ye + 1) with
      | none => simp [hw] at this
      | some ws => rfl

lemma windowLoop_spec (size ye : ℤ) (hsz : 1 ≤ size) :
    ∀ fuel cs ws, windowLoop size ye fuel cs = some ws → cs ≤ ye →
      (∃ rest, ws = (cs, min (cs + size - 1) ye) :: rest) ∧
      List.Chain' (fun a b => a.2 + 1 = b.1) ws ∧
      (∃ p, ws.getLast? = some p ∧ p.2 = ye) ∧
      (∀ w ∈ ws, w.1 ≤ w.2 ∧ w.2 ≤ ye ∧ cs ≤ w.1) ∧
      (∀ y : ℤ, ws.countP (fun w => decide (w.1 ≤ y ∧ y ≤ w.2)) =
        if cs ≤ y ∧ y ≤ ye then 1 else 0) ∧
      (ws.length : ℤ) = ⌈((ye - cs + 1 : ℤ) : ℚ) / ((size : ℤ) : ℚ)⌉ := by
  have hsz0 : (0 : ℚ) < ((size : ℤ) : ℚ) := by exact_mod_cast (by omega : (0:ℤ) < size)
  intro fuel
  induction fuel with
  | zero => intro cs ws h; simp [windowLoop] at h
  | succ f ih =>
    intro cs ws h hcs
    rw [windowLoop_succ, if_neg (by omega)] at h
    cases hw : windowLoop size ye f (min (cs + size - 1) ye + 1) with
    | none => rw [hw] at h; exact absurd h (by simp)
    | some ws' =>
      rw [hw] at h
      have hws : ws = (cs, min (cs + size - 1) ye) :: ws' := (Option.some_inj.mp h).symm
      subst hws
      have hce_le : min (cs + size - 1) ye ≤ ye := by omega
      have hce_ge : cs ≤ min (cs + size - 1) ye := by omega
      by_cases hrec : ye < min (cs + size - 1) ye + 1
      · -- last iteration: the window end is exactly ye and the inner list is empty
        have hce : min (cs + size - 1) ye = ye := by omega
        have hws' : ws' = [] := windowLoop_some_gt size ye f _ ws' hw (by omega)
        subst hws'
        refine ⟨⟨[], rfl⟩, List.chain'_singleton _,
          ⟨(cs, min (cs + size - 1) ye), rfl, hce⟩, ?_, ?_, ?_⟩
        · intro w hwmem
          simp only [List.mem_singleton] at hwmem
          subst hwmem
          exact ⟨hce_ge, hce_le, le_refl _⟩
        · intro y
          simp only [List.countP_cons, List.countP_nil, decide_eq_true_eq]
          split_ifs <;> omega
        · have hspan2 : ye - cs + 1 ≤ size := by omega
          have h1 : (0 : ℚ) < ((ye - cs + 1 : ℤ) : ℚ) := by
            exact_mod_cast (by omega : (0:ℤ) < ye - cs + 1)
          have h2 : ((ye - cs + 1 : ℤ) : ℚ) ≤ ((size : ℤ) : ℚ) := by exact_mod_cast hspan2
          rw [List.length_singleton, eq_comm, Int.ceil_eq_iff]
          constructor
          · simpa using div_pos h1 hsz0
          · simpa using (div_le_one hsz0).mpr h2
      · -- the loop continues at min (cs + size - 1) ye + 1
        have hmin : min (cs + size - 1) ye = cs + size - 1 := by omega
        obtain ⟨⟨rest, hrest⟩, hchain, ⟨p, hp1, hp2⟩, hmem, hcount, hlen⟩ :=
          ih _ ws' hw (by omega)
        refine ⟨⟨ws', rfl⟩, ?_, ?_, ?_, ?_, ?_⟩
        · rw [hrest]
          exact List.chain'_cons.mpr ⟨rfl, hrest ▸ hchain⟩
        · refine ⟨p, ?_, hp2⟩
          rw [hrest, List.getLast?_cons_cons, ← hrest]
          exact hp1
        · intro w hwmem
          rcases List.mem_cons.mp hwmem with hwe | hwm
          · subst hwe; exact ⟨hce_ge, hce_le, le_refl _⟩
          · obtain ⟨h1, h2, h3⟩ := hmem w hwm
            exact ⟨h1, h2, by omega⟩
        · intro y
          rw [List.countP_cons, hcount y]
          simp only [decide_eq_true_eq]
          split_ifs <;> omega
        · have hszQ : ((size : ℤ) : ℚ) ≠ 0 := ne_of_gt hsz0
          have key : ((ye - (min (cs + size - 1) ye + 1) + 1 : ℤ) : ℚ) / ((size : ℤ) : ℚ)
              = ((ye - cs + 1 : ℤ) : ℚ) / ((size : ℤ) : ℚ) - 1 := by
            rw [hmin]
            field_simp
            ring
          have hlen' : (ws'.length : ℤ)
              = ⌈((ye - cs + 1 : ℤ) : ℚ) / ((size : ℤ) : ℚ)⌉ - 1 := by
            rw [hlen, key, Int.ceil_sub_one]
          simp only [List.length_cons]
          rw [Nat.cast_add, Nat.cast_one, hlen']
          omega

lemma partsChars_cons (p : TextPart) (ps : List TextPart) :
    partsChars (p :: ps) = partChars p ++ partsChars ps := rfl

lemma partsChars_consText (c : Char) (ps : List TextPart) :
    partsChars (consText c ps) = c :: partsChars ps := by
  cases ps with
  | nil => rfl
  | cons p ps =>
    cases p with
    | text t => rfl
    | cite ds => rfl

lemma partsChars_prependChars (xs : List Char) (ps : List TextPart) :
    partsChars (prependChars xs ps) = xs ++ partsChars ps := by
  induction xs with
  | nil => rfl
  | cons x xs ih =>
    show partsChars (consText x (prependChars xs ps)) = x :: (xs ++ partsChars ps)
    rw [partsChars_consText, ih]

lemma partsChars_scanAux (cs : List Char) :
    ∀ pending, partsChars (scanAux pending cs) = pendChars pending ++ cs := by
  induction cs with
  | nil =>
    intro pending
    cases pending with
    | none => rfl
    | some ds =>
      show partsChars (prependChars ('[' :: ds.reverse) []) = _
      rw [partsChars_prependChars]
      simp [pendChars, partsChars]
  | cons c cs ih =>
    intro pending
    cases pending with
    | none =>
      show partsChars
          (if c = '[' then scanAux (some []) cs else consText c (scanAux none cs))
        = [] ++ c :: cs
      by_cases hc : c = '['
      · rw [if_pos hc, ih (some [])]
        simp [pendChars, hc]
      · rw [if_neg hc, partsChars_consText, ih none]
        rfl
    | some ds =>
      show partsChars
          (if c.isDigit then scanAux (some (c :: ds)) cs
           else if c = ']' then
             if ds.isEmpty then prependChars ['[', ']'] (scanAux none cs)
             else TextPart.cite ds.reverse :: scanAux none cs
           else if c = '[' then prependChars ('[' :: ds.reverse) (scanAux (some []) cs)
           else prependChars ('[' :: ds.reverse) (consText c (scanAux none cs)))
        = ('[' :: ds.reverse) ++ c :: cs
      by_cases h1 : c.isDigit
      · rw [if_pos h1, ih (some (c :: ds))]
        simp [pendChars]
      · rw [if_neg h1]
        by_cases h2 : c = ']'
        · rw [if_pos h2]
          by_cases h3 : ds.isEmpty
          · rw [if_pos h3, partsChars_prependChars, ih none]
            have : ds = [] := List.isEmpty_iff.mp h3
            simp [this, pendChars, h2]
          · rw [if_neg h3, partsChars_cons, ih none]
            simp [partChars, pendChars, h2]
        · rw [if_neg h2]
          by_cases h4 : c = '['
          · rw [if_pos h4, partsChars_prependChars, ih (some [])]
            simp [pendChars, h4]
          · rw [if_neg h4, partsChars_prependChars, partsChars_consText, ih none]
            simp [pendChars]

/-- C5: all text outside the matched citation spans is preserved:
concatenating, in order, the emitted plain-text parts and the matched
citation spans reconstructs the input string exactly. -/
theorem citation_text_preserved (s : String) :
    String.mk (partsChars (scanText s.toList)) = s := by
  rw [scanText, partsChars_scanAux s.toList none]
  show String.mk ([] ++ s.data) = s
  cases s
  rfl

/-- C2: a citation number `n` resolves to the chunk at list position
`n - 1` exactly when `1 ≤ n ≤ chunks.length` and is then rendered as an
interactive chip; for every `n` outside that range it resolves to
nothing and is rendered as the plain, non-interactive span `[n]`. -/
theorem citation_resolution {α : Type} (chunks : List α) (n : ℕ) :
    (∀ h : 1 ≤ n ∧ n ≤ chunks.length,
      resolveCitation chunks n = some (chunks.get ⟨n - 1, by omega⟩) ∧
      renderCitation chunks n = CitationRender.chip n (chunks.get ⟨n - 1, by omega⟩)) ∧
    (¬(1 ≤ n ∧ n ≤ chunks.length) →
      resolveCitation chunks n = none ∧
      renderCitation chunks n = CitationRender.plainSpan ("[" ++ toString n ++ "]")) := by
  constructor
  · intro h
    have h0 : (0 : ℤ) ≤ (n : ℤ) - 1 := by omega
    have ht : ((n : ℤ) - 1).toNat = n - 1 := by omega
    have hlt : n - 1 < chunks.length := by omega
    have hres : resolveCitation chunks n = some (chunks.get ⟨n - 1, hlt⟩) := by
      rw [resolveCitation, jsGet, if_pos h0, ht, List.getElem?_eq_getElem hlt]
      rfl
    exact ⟨hres, by rw [renderCitation, hres]⟩
  · intro h
    have hres : resolveCitation chunks n = none := by
      rw [resolveCitation, jsGet]
      by_cases h0 : (0 : ℤ) ≤ (n : ℤ) - 1
      · rw [if_pos h0]
        apply List.getElem?_eq_none
        omega
      · rw [if_neg h0]
    exact ⟨hres, by rw [renderCitation, hres]⟩

/-- C2 witness: with two chunks, citation 2 resolves to the second chunk
and renders as a chip; citation 5 renders as the plain span. -/
theorem citation_resolution_witness :
    renderCitation (["a", "b"] : List String) 2 = CitationRender.chip 2 ("b") ∧
    renderCitation (["a", "b"] : List String) 5
      = CitationRender.plainSpan ("[5]") := by
  constructor
  · exact ((citation_resolution (["a", "b"] : List String) 2).1 ⟨by decide, by decide⟩).2
  · exact ((citation_resolution (["a", "b"] : List String) 5).2 (by decide)).2

/-- C3: the code performs no citation-format detection: a text whose
citations are all parenthesized yields no citation at all — the whole
text stays one plain part (only the bracketed notation is ever scanned). -/
theorem citation_no_format_detection :
    scanText ("Die Mauer fiel (1). Der Bau (2) und die Folgen (3).".toList)
      = [TextPart.text ("Die Mauer fiel (1). Der Bau (2) und die Folgen (3).".toList)] ∧
    citationNumbers
      (scanText ("Die Mauer fiel (1). Der Bau (2) und die Folgen (3).".toList)) = [] := by
  exact ⟨by decide, by decide⟩

/-- C6: the code performs no sequence validation: the non-sequential
answer `[1] und [3]` is rendered as its two citations with the text
between them, and nothing in the produced parts flags the gap. -/
theorem citation_no_sequence_validation :
    scanText ("[1] und [3]".toList)
      = [TextPart.cite ['1'], TextPart.text (" und ".toList), TextPart.cite ['3']] ∧
    citationNumbers (scanText ("[1] und [3]".toList)) = [1, 3] := by
  exact ⟨by decide, by decide⟩

/-- C1: for `year_start ≤ year_end` and `size ≥ 1` the generation loop
terminates and its windows are contiguous (each end + 1 is the next
start), non-overlapping and cover `[year_start, year_end]` exactly once
(every year in range lies in exactly one window, every year outside in
none), start at `year_start`, and the last window ends at `year_end`;
input (1960, 1975, 5) yields 1960-1964, 1965-1969, 1970-1974, 1975-1975. -/
theorem window_partition (ys ye size : ℤ) (hle : ys ≤ ye) (hsz : 1 ≤ size) :
    (∀ fuel : ℕ, (ye + 1 - ys).toNat < fuel →
      (windowLoop size ye fuel ys).isSome = true) ∧
    (∀ (fuel : ℕ) (ws : List (ℤ × ℤ)), windowLoop size ye fuel ys = some ws →
      ws.head?.map Prod.fst = some ys ∧
      List.Chain' (fun a b => a.2 + 1 = b.1) ws ∧
      (∃ p, ws.getLast? = some p ∧ p.2 = ye) ∧
      (∀ w ∈ ws, w.1 ≤ w.2) ∧
      (∀ y : ℤ, ws.countP (fun w => decide (w.1 ≤ y ∧ y ≤ w.2)) =
        if ys ≤ y ∧ y ≤ ye then 1 else 0)) ∧
    (windowLoop 5 1975 17 1960).map (fun ws => ws.map renderWindow) =
      some ["1960-1964", "1965-1969", "1970-1974", "1975-1975"] := by
  refine ⟨fun fuel => windowLoop_total size ye hsz fuel ys, ?_, by decide⟩
  intro fuel ws hw
  obtain ⟨⟨rest, hrest⟩, hchain, hlast, hmem, hcount, _⟩ :=
    windowLoop_spec size ye hsz fuel ys ws hw hle
  exact ⟨by rw [hrest]; rfl, hchain, hlast, fun w hw' => (hmem w hw').1, hcount⟩

/-- C1 witness: at (1960, 1975, 5) the loop terminates within 17
iterations and produces the four example windows. -/
theorem window_partition_witness :
    (windowLoop 5 1975 17 1960).isSome = true ∧
    (windowLoop 5 1975 17 1960).map (fun ws => ws.map renderWindow) =
      some ["1960-1964", "1965-1969", "1970-1974", "1975-1975"] :=
  ⟨(window_partition 1960 1975 5 (by decide) (by decide)).1 17 (by decide),
   (window_partition 1960 1975 5 (by decide) (by decide)).2.2⟩

/-- C8: whenever the generation loop terminates on a valid range, the
number of intervals it produced equals the arithmetic formula
`Math.ceil(span / size)` announced in the summary string. -/
theorem interval_count_consistent (ys ye size : ℤ) (hle : ys ≤ ye) (hsz : 1 ≤ size) :
    ∀ (fuel : ℕ) (out : TICOutput),
      timeIntervalCalculation ys ye size fuel = some (Sum.inr out) →
      (out.intervals.length : ℤ) = numIntervalsFormula ys ye size := by
  intro fuel out h
  rw [timeIntervalCalculation, if_neg (by omega)] at h
  cases hw : windowLoop size ye fuel ys with
  | none => rw [hw] at h; exact absurd h (by simp)
  | some ws =>
    rw [hw] at h
    simp only [Option.map_some', Option.some_inj] at h
    have hinj := Sum.inr.inj h
    subst hinj
    show ((ws.map renderWindow).length : ℤ) = numIntervalsFormula ys ye size
    rw [List.length_map]
    exact (windowLoop_spec size ye hsz fuel ys ws hw hle).2.2.2.2.2

/-- C8 witness: at (1960, 1975, 5) the loop produces 4 intervals and
`ceil(16 / 5) = 4`. -/
theorem interval_count_consistent_witness :
    ((["1960-1964", "1965-1969", "1970-1974", "1975-1975"] : List String).length : ℤ)
      = numIntervalsFormula 1960 1975 5 := by
  refine interval_count_consistent 1960 1975 5 (by decide) (by decide) 17
    ⟨mkSummary 16 (numIntervalsFormula 1960 1975 5) 5,
     ["1960-1964", "1965-1969", "1970-1974", "1975-1975"]⟩ ?_
  rw [timeIntervalCalculation, if_neg (by omega),
    show windowLoop 5 1975 17 1960
        = some [(1960, 1964), (1965, 1969), (1970, 1974), (1975, 1975)] from by decide]
  rfl

/-- C7 (amended): the invalid-range message is reported exactly when
`year_start > year_end`; the interval size is never validated — for
`size < 1` with `year_start ≤ year_end` the generation loop does not
terminate (no result for any iteration bound), and in neither case is a
window list returned. -/
theorem invalid_range_check (ys ye size : ℤ) (fuel : ℕ) :
    (ye < ys → timeIntervalCalculation ys ye size fuel
      = some (Sum.inl ("Startjahr muss vor Endjahr liegen."))) ∧
    (size ≤ 0 → ys ≤ ye → timeIntervalCalculation ys ye size fuel = none) := by
  constructor
  · intro h
    rw [timeIntervalCalculation, if_pos (by omega)]
  · intro h1 h2
    rw [timeIntervalCalculation, if_neg (by omega),
      windowLoop_nonpos size ye h1 fuel ys h2]
    rfl

/-- C7 witness: (1970, 1960, 5) reports the invalid-range message;
(1960, 1960, 0) produces nothing within 10 iterations. -/
theorem invalid_range_check_witness :
    timeIntervalCalculation 1970 1960 5 10
      = some (Sum.inl ("Startjahr muss vor Endjahr liegen.")) ∧
    timeIntervalCalculation 1960 1960 0 10 = none :=
  ⟨(invalid_range_check 1970 1960 5 10).1 (by decide),
   (invalid_range_check 1960 1960 0 10).2 (by decide) (by decide)⟩

/-- C7 counterexample: at (1960, 1960, 0) — where the claim demands a
reported invalid-range failure because size < 1 — the code reports
nothing: the guard only tests `year_start > year_end` and the loop
makes no progress (100 iterations produce no result). -/
theorem invalid_range_check_cex :
    timeIntervalCalculation 1960 1960 0 100 = none := by
  rw [timeIntervalCalculation, if_neg (by omega),
    windowLoop_nonpos 0 1960 (by omega) 100 1960 (by omega)]
  rfl

/-- C4: `performSearch` assigns ids so that the chunk at 0-based
position `i` carries id `i + 1`: the id list is exactly `1..N` in list
order, the chunk payloads are unchanged, and the assignment is a pure
function of the response list. -/
theorem chunk_ids_sequential {α : Type} (chunks : List α) :
    (chunksWithIds chunks).map IdChunk.id = List.range' 1 chunks.length ∧
    (chunksWithIds chunks).map IdChunk.data = chunks ∧
    (∀ (i : ℕ) (h : i < (chunksWithIds chunks).length),
      ((chunksWithIds chunks).get ⟨i, h⟩).id = i + 1) := by
  refine ⟨?_, ?_, ?_⟩
  · refine List.ext_getElem (by simp [chunksWithIds]) ?_
    intro i h1 h2
    simp [chunksWithIds, List.getElem_enum, List.getElem_range']
    omega
  · refine List.ext_getElem (by simp [chunksWithIds]) ?_
    intro i h1 h2
    simp [chunksWithIds, List.getElem_enum]
  · intro i h
    simp [chunksWithIds, List.get_eq_getElem, List.getElem_enum]

/-- C4 witness: the second of three chunks carries id 2. -/
theorem chunk_ids_sequential_witness :
    ((chunksWithIds (["x", "y", "z"] : List String)).get ⟨1, by decide⟩).id = 2 :=
  (chunk_ids_sequential (["x", "y", "z"] : List String)).2.2 1 (by decide)

/-- C9: every `performSearch` outcome ends with `isSearching = false`
and clears `transferredChunks`/`analysisResult`; the failure path leaves
`searchResults = none` with a non-null error message, and the success
path stores the id-annotated chunks, clears the error, and selects all
chunk ids by default. -/
theorem search_state_machine {α β : Type} (s : StoreState α β)
    (outcome : Except String (List α)) :
    (performSearch s outcome).isSearching = false ∧
    (performSearch s outcome).transferredChunks = [] ∧
    (performSearch s outcome).analysisResult = none ∧
    (∀ msg, outcome = Except.error msg →
      (performSearch s outcome).searchResults = none ∧
      (performSearch s outcome).searchError = some msg) ∧
    (∀ chunks, outcome = Except.ok chunks →
      (performSearch s outcome).searchError = none ∧
      (performSearch s outcome).searchResults = some (chunksWithIds chunks) ∧
      (performSearch s outcome).selectedChunkIds
        = (chunksWithIds chunks).map IdChunk.id) := by
  cases outcome <;> simp [performSearch]

/-- C9 witness: a failed search stores the error message; a successful
search over two chunks selects ids [1, 2]. -/
theorem search_state_machine_witness :
    (performSearch (⟨true, none, none, [5], [], none⟩ : StoreState Unit Unit)
      (Except.error ("boom"))).searchError = some ("boom") ∧
    (performSearch (⟨true, none, none, [5], [], none⟩ : StoreState Unit Unit)
      (Except.ok [(), ()])).selectedChunkIds = [1, 2] :=
  ⟨((search_state_machine (⟨true, none, none, [5], [], none⟩ : StoreState Unit Unit)
      (Except.error ("boom"))).2.2.2.1 ("boom") rfl).2,
   ((search_state_machine (⟨true, none, none, [5], [], none⟩ : StoreState Unit Unit)
      (Except.ok [(), ()])).2.2.2.2 [(), ()] rfl).2.2⟩

lemma sortScores_sorted (l : List ℚ) : (sortScores l).Sorted (· ≤ ·) :=
  List.sorted_insertionSort _ l

lemma sortScores_perm (l : List ℚ) : List.Perm (sortScores l) l :=
  List.perm_insertionSort _ l

lemma sortScores_length (l : List ℚ) : (sortScores l).length = l.length :=
  (sortScores_perm l).length_eq

lemma sorted_getD_le_getD {l : List ℚ} (h : l.Sorted (· ≤ ·)) {i j : ℕ}
    (hij : i ≤ j) (hj : j < l.length) : l.getD i 0 ≤ l.getD j 0 := by
  have hi : i < l.length := lt_of_le_of_lt hij hj
  rw [List.getD_eq_getElem _ _ hi, List.getD_eq_getElem _ _ hj]
  exact h.rel_get_of_le (Fin.mk_le_mk.mpr hij)

lemma sortScores_first_le (scores : List ℚ) {s : ℚ} (hs : s ∈ scores) :
    (sortScores scores).getD 0 0 ≤ s := by
  have hmem : s ∈ sortScores scores := (sortScores_perm scores).mem_iff.mpr hs
  obtain ⟨i, hi, rfl⟩ := List.mem_iff_getElem.mp hmem
  have h := sorted_getD_le_getD (sortScores_sorted scores) (Nat.zero_le i) hi
  rw [List.getD_eq_getElem _ _ hi] at h
  exact h

lemma sortScores_le_last (scores : List ℚ) {s : ℚ} (hs : s ∈ scores) :
    s ≤ (sortScores scores).getD ((sortScores scores).length - 1) 0 := by
  have hmem : s ∈ sortScores scores := (sortScores_perm scores).mem_iff.mpr hs
  obtain ⟨i, hi, rfl⟩ := List.mem_iff_getElem.mp hmem
  have h := sorted_getD_le_getD (sortScores_sorted scores)
    (show i ≤ (sortScores scores).length - 1 by omega)
    (show (sortScores scores).length - 1 < (sortScores scores).length by omega)
  rw [List.getD_eq_getElem _ _ hi] at h
  exact h

lemma sortScores_example : sortScores [(1:ℚ)/2, 1] = [1/2, 1] := by
  norm_num [sortScores, List.insertionSort, List.orderedInsert]

lemma calculateStats_example :
    calculateStats [(1:ℚ)/2, 1] = some ⟨1/2, 1, 3/4, 1/2, 1, 1⟩ := by
  norm_num [calculateStats, sortScores_example, List.getD_cons_zero,
    List.getD_cons_succ, List.sum_cons, List.sum_nil, ScoreStats.mk.injEq]

/-- C10 (amended): `calculateStats` returns null exactly when the score
list is empty; for every non-empty score list with all scores in [0, 1]
every quartile index is in bounds with the quartiles between min and
max, and every bin index computed in `ViolinPlot` as
`Math.min(Math.floor(((score - yMin) / yRange) * bins), bins - 1)` lies
within 0..bins-1, including the boundary score 1.0. -/
theorem score_stats_safe :
    (∀ l : List ℚ, (calculateStats l).isNone = true ↔ l = []) ∧
    (∀ (scores : List ℚ) (st : ScoreStats), calculateStats scores = some st →
      (∀ s ∈ scores, 0 ≤ s ∧ s ≤ 1) →
      ((sortScores scores).length / 4 < (sortScores scores).length ∧
       (sortScores scores).length / 2 < (sortScores scores).length ∧
       3 * (sortScores scores).length / 4 < (sortScores scores).length ∧
       (sortScores scores).length - 1 < (sortScores scores).length) ∧
      (st.min ≤ st.q1 ∧ st.min ≤ st.median ∧ st.min ≤ st.q3 ∧
       st.q1 ≤ st.max ∧ st.median ≤ st.max ∧ st.q3 ≤ st.max) ∧
      (∀ s ∈ scores,
        0 ≤ binIndexOf (yMinOf st.min st.max) (yMaxOf st.min st.max) s ∧
        binIndexOf (yMinOf st.min st.max) (yMaxOf st.min st.max) s ≤ 9)) := by
  constructor
  · intro l
    by_cases h : l.length = 0
    · rw [calculateStats, if_pos h]
      simpa using List.length_eq_zero.mp h
    · rw [calculateStats, if_neg h]
      simpa using fun he => h (by rw [he]; rfl)
  · intro scores st hst hbound
    have h0 : ¬scores.length = 0 := by
      intro h
      rw [calculateStats, if_pos h] at hst
      exact absurd hst (by simp)
    rw [calculateStats, if_neg h0] at hst
    have hstv := Option.some_inj.mp hst
    subst hstv
    have hlen : (sortScores scores).length = scores.length := sortScores_length scores
    have hne : 0 < (sortScores scores).length := by omega
    have hsorted := sortScores_sorted scores
    refine ⟨by omega, ?_, ?_⟩
    · refine ⟨?_, ?_, ?_, ?_, ?_, ?_⟩ <;>
        exact sorted_getD_le_getD hsorted (by omega) (by omega)
    · intro s hs
      have hmn_mem : (sortScores scores).getD 0 0 ∈ scores := by
        rw [List.getD_eq_getElem _ _ hne]
        exact (sortScores_perm scores).mem_iff.mp (List.get_mem _ _ _)
      have hmn1 : 0 ≤ (sortScores scores).getD 0 0 := (hbound _ hmn_mem).1
      have hmx_mem :
          (sortScores scores).getD ((sortScores scores).length - 1) 0 ∈ scores := by
        rw [List.getD_eq_getElem _ _
          (show (sortScores scores).length - 1 < (sortScores scores).length by omega)]
        exact (sortScores_perm scores).mem_iff.mp (List.get_mem _ _ _)
      have hmx1 : (sortScores scores).getD ((sortScores scores).length - 1) 0 ≤ 1 :=
        (hbound _ hmx_mem).2
      have hmnmx : (sortScores scores).getD 0 0
          ≤ (sortScores scores).getD ((sortScores scores).length - 1) 0 :=
        sorted_getD_le_getD hsorted (by omega) (by omega)
      set mn := (sortScores scores).getD 0 0 with hmn_def
      set mx := (sortScores scores).getD ((sortScores scores).length - 1) 0 with hmx_def
      have hs0 : 0 ≤ s := (hbound s hs).1
      have hsmn : mn ≤ s := sortScores_first_le scores hs
      have hsmx : s ≤ mx := sortScores_le_last scores hs
      have hpad : (1 : ℚ)/20 ≤ scorePadding mn mx := le_max_left _ _
      have hymin_le : yMinOf mn mx ≤ s :=
        max_le hs0 (by have := hpad; linarith)
      have hymin_lt : yMinOf mn mx < yMaxOf mn mx := by
        apply lt_min
        · apply max_lt (by norm_num)
          have hmx0 : 0 ≤ mx := le_trans hmn1 hmnmx
          linarith
        · apply max_lt
          · have hmn2 : mn ≤ 1 := le_trans hmnmx hmx1
            have hmx0 : 0 ≤ mx := le_trans hmn1 hmnmx
            linarith
          · linarith
      have hrange : 0 < yMaxOf mn mx - yMinOf mn mx := sub_pos.mpr hymin_lt
      constructor
      · apply le_min
        · rw [Int.le_floor]
          push_cast
          apply mul_nonneg _ (by norm_num)
          exact div_nonneg (by linarith) (le_of_lt hrange)
        · norm_num
      · exact min_le_right _ _

/-- C10 witness: scores {1/2, 1} (containing the boundary score 1) give
a bin index within 0..9 at the score 1. -/
theorem score_stats_safe_witness :
    0 ≤ binIndexOf (yMinOf ((1:ℚ)/2) 1) (yMaxOf ((1:ℚ)/2) 1) 1 ∧
    binIndexOf (yMinOf ((1:ℚ)/2) 1) (yMaxOf ((1:ℚ)/2) 1) 1 ≤ 9 := by
  have h := (score_stats_safe.2 [(1:ℚ)/2, 1]
      ⟨1/2, 1, 3/4, 1/2, 1, 1⟩ calculateStats_example
      (by norm_num [List.forall_mem_cons])).2.2 1
      (List.mem_cons_of_mem _ (List.mem_cons_self _ _))
  exact h

/-- C10 counterexample: on the scores {1/2, 1} (so `yMin = 2/5`,
`yMax = 1`), the bin index the code computes for score 1/2 is 1, while
the formula quoted by the claim, `Math.min(Math.floor(score * bins),
bins - 1)`, gives 5. -/
theorem score_bin_formula_cex :
    binIndexOf (yMinOf ((1:ℚ)/2) 1) (yMaxOf ((1:ℚ)/2) 1) ((1:ℚ)/2) = 1 ∧
    binIndexClaimed ((1:ℚ)/2) = 5 ∧
    (calculateStats [(1:ℚ)/2, 1]).map ScoreStats.min = some ((1:ℚ)/2) ∧
    (calculateStats [(1:ℚ)/2, 1]).map ScoreStats.max = some (1:ℚ) := by
  have hpad : scorePadding ((1:ℚ)/2) 1 = 1/10 := by
    rw [scorePadding, show ((1:ℚ) - 1/2) * (1/5) = 1/10 by norm_num,
      max_eq_right (by norm_num : (1:ℚ)/20 ≤ 1/10)]
  have hymin : yMinOf ((1:ℚ)/2) 1 = 2/5 := by
    rw [yMinOf, hpad, show ((1:ℚ)/2 - 1/10) = 2/5 by norm_num,
      max_eq_right (by norm_num : (0:ℚ) ≤ 2/5)]
  have hymax : yMaxOf ((1:ℚ)/2) 1 = 1 := by
    rw [yMaxOf, hpad, min_eq_left (by norm_num : (1:ℚ) ≤ 1 + 1/10)]
  refine ⟨?_, ?_, by rw [calculateStats_example]; rfl, by rw [calculateStats_example]; rfl⟩
  · rw [binIndexOf, hymin, hymax,
      show ((1:ℚ)/2 - 2/5) / (1 - 2/5) * 10 = 5/3 by norm_num,
      show ⌊(5:ℚ)/3⌋ = 1 from by norm_num [Int.floor_eq_iff]]
    decide
  · rw [binIndexClaimed, show ((1:ℚ)/2) * 10 = 5 by norm_num,
      show ⌊(5:ℚ)⌋ = 5 from by norm_num]
    decide

end SpiegelRag
